import Mathlib

/-!
# platform_common: transaction manager, pg adapter, closer and redis client

A shallow embedding of the Go packages `pkg/db/transaction`, `pkg/db/pg`,
`pkg/closer` and `pkg/cache/redis`, with the properties the specification
states about them.

Conventions of the embedding:
* a Go `error` is `Option GoError` (`none` is `nil`);
* effectful code is written in writer style: a function returns its result
  together with the list of observable events it produced, and receives the
  history of events so far (the external store may answer depending on it);
* a handler that panics returns `Outcome.panic`.
-/

namespace PlatformCommon

/-! ## Error values (`github.com/pkg/errors`) -/

/-- An error value: either an error with a plain message, or an error wrapping
a cause with an annotation (what `errors.Wrap`/`errors.Wrapf` build). -/
inductive GoError where
  | fundamental (msg : String)
  | withMessage (cause : GoError) (msg : String)
deriving DecidableEq, Repr

/-- The `Error()` method: an annotated error prints `msg: cause`. -/
def GoError.Error : GoError → String
  | .fundamental m => m
  | .withMessage c m => m ++ ": " ++ c.Error

/-- The function `errors.Cause`: the innermost error of the chain. -/
def GoError.Cause : GoError → GoError
  | .fundamental m => .fundamental m
  | .withMessage c _ => c.Cause

/-- The function `errors.Wrap(err, message)`: `nil` stays `nil`. -/
def errors.Wrap (err : Option GoError) (message : String) : Option GoError :=
  match err with
  | none => none
  | some e => some (.withMessage e message)

/-- The function `errors.Wrapf(err, format, args...)`, applied to the already
formatted message. -/
def errors.Wrapf (err : Option GoError) (formatted : String) : Option GoError :=
  errors.Wrap err formatted

/-- The function `errors.Errorf(format, args...)`, applied to the already
formatted message. -/
def errors.Errorf (formatted : String) : GoError :=
  .fundamental formatted

/-- Whether the character list `s` starts with `p`. -/
def startsWith : List Char → List Char → Bool
  | _, [] => true
  | [], _ :: _ => false
  | c :: s, d :: p => decide (c = d) && startsWith s p

/-- Whether `sub` occurs in the character list `s`. -/
def containsChars : List Char → List Char → Bool
  | [], sub => startsWith [] sub
  | c :: s, sub => startsWith (c :: s) sub || containsChars s sub

/-- The function `strings.Contains(s, substr)`. -/
def strings.Contains (s substr : String) : Bool :=
  containsChars s.data substr.data

/-! ## Execution context (`context.Context`) and the transaction key -/

/-- Identity of a `pgx.Tx` handle returned by the driver (never nil). -/
abbrev Tx := Nat

/-- A context key: Go compares keys by dynamic type and value. -/
structure CtxKey where
  typ : String
  val : String
deriving DecidableEq, Repr

/-- A value stored in a context: a non-nil `pgx.Tx`, or anything else. -/
inductive CtxValue where
  | tx (h : Tx)
  | other (v : String)
deriving DecidableEq, Repr

/-- A context as its chain of `context.WithValue` bindings, innermost first. -/
abbrev Ctx := List (CtxKey × CtxValue)

/-- The constant `const TxKey key = "tx"` of package pg. -/
def TxKey : CtxKey := ⟨"pg.key", "tx"⟩

/-- The method `ctx.Value(key)`: the innermost binding of the key. -/
def Ctx.Value : Ctx → CtxKey → Option CtxValue
  | [], _ => none
  | (k, v) :: rest, key => if k = key then some v else Ctx.Value rest key

/-- The probe `tx, ok := ctx.Value(TxKey).(pgx.Tx)`: `some tx` when `ok`. -/
def txFromCtx (ctx : Ctx) : Option Tx :=
  match Ctx.Value ctx TxKey with
  | some (.tx h) => some h
  | _ => none

/-- The function `MakeContextTx`: `context.WithValue(ctx, TxKey, tx)`. -/
def MakeContextTx (ctx : Ctx) (tx : Tx) : Ctx :=
  (TxKey, .tx tx) :: ctx

/-! ## Transaction manager (`pkg/db/transaction`) -/

/-- The struct `pgx.TxOptions`; only the isolation level is ever set. -/
structure TxOptions where
  IsoLevel : String
deriving DecidableEq, Repr

/-- Observable events of a run of the manager. `Handler ctx` records that the
manager invoked the user handler with `ctx`; `Op` is anything user code does. -/
inductive Event where
  | BeginTx (ctx : Ctx) (opts : TxOptions)
  | Commit (tx : Tx) (ctx : Ctx)
  | Rollback (tx : Tx) (ctx : Ctx)
  | Handler (ctx : Ctx)
  | Op (desc : String)
deriving DecidableEq, Repr

/-- How a call of a Go function of type `func(ctx) error` ends: it returns an
error value, or it panics. The panic value is represented by its `%v`
rendering; `recover()` returns it non-nil (since Go 1.21 also `panic(nil)`
is recovered as a non-nil `*runtime.PanicNilError`). -/
inductive Outcome where
  | ret (err : Option GoError)
  | panic (v : String)
deriving DecidableEq, Repr

/-- The type `db.Handler`: given the context and the history of events so far,
it ends with an outcome and has produced some events. -/
abbrev Handler := Ctx → List Event → Outcome × List Event

/-- The store behind `db.Transactor` and `pgx.Tx`: what `BeginTx`, `Commit`
and `Rollback` answer, possibly depending on the history of events. -/
structure Store where
  BeginTx : Ctx → TxOptions → List Event → Except GoError Tx
  Commit : Tx → Ctx → List Event → Option GoError
  Rollback : Tx → Ctx → List Event → Option GoError

/-- The deferred function of `transaction`: `recovered` is what `recover()`
returned, `err` the named result at that point, `hist` the history so far.
Returns the final value of the named result and the events produced. -/
def transaction.deferred (m : Store) (tx : Tx) (ctx : Ctx)
    (recovered : Option String) (err : Option GoError) (hist : List Event) :
    Option GoError × List Event :=
  let err1 : Option GoError :=
    match recovered with
    | some r => some (errors.Errorf ("panic recovered: " ++ r))
    | none => err
  match err1 with
  | some e =>
    match m.Rollback tx ctx hist with
    | some errRollback =>
      (errors.Wrapf (some e) ("rollback error: " ++ errRollback.Error), [.Rollback tx ctx])
    | none => (some e, [.Rollback tx ctx])
  | none =>
    match m.Commit tx ctx hist with
    | some errCommit =>
      (errors.Wrap (some errCommit) "transaction commit failed", [.Commit tx ctx])
    | none => (none, [.Commit tx ctx])

/-- The part of `manager.transaction` after `BeginTx` returned the handle
`tx`: the handle is placed in the context, the deferred function is set
up, the handler is executed, and the deferred function runs on the way out. -/
def transaction.begun (m : Store) (ctx : Ctx) (opts : TxOptions) (tx : Tx) (fn : Handler)
    (hist : List Event) : Outcome × List Event :=
  let ctx' := MakeContextTx ctx tx
  let pre : List Event := [.BeginTx ctx opts, .Handler ctx']
  let r := fn ctx' (hist ++ pre)
  let d :=
    match r.1 with
    | .panic v => transaction.deferred m tx ctx' (some v) none (hist ++ pre ++ r.2)
    | .ret none => transaction.deferred m tx ctx' none none (hist ++ pre ++ r.2)
    | .ret (some e) =>
      transaction.deferred m tx ctx' none
        (errors.Wrap (some e) "failed executing code inside transaction")
        (hist ++ pre ++ r.2)
  (.ret d.1, pre ++ r.2 ++ d.2)

/-- The method `manager.transaction`. -/
def transaction (m : Store) (ctx : Ctx) (opts : TxOptions) (fn : Handler)
    (hist : List Event) : Outcome × List Event :=
  match txFromCtx ctx with
  | some _ =>
    let r := fn ctx (hist ++ [.Handler ctx])
    (r.1, .Handler ctx :: r.2)
  | none =>
    match m.BeginTx ctx opts hist with
    | .error err =>
      (.ret (errors.Wrap (some err) "failed to begin transaction"), [.BeginTx ctx opts])
    | .ok tx => transaction.begun m ctx opts tx fn hist

/-- The isolation level constant `pgx.ReadCommitted`. -/
def pgx.ReadCommitted : String := "read committed"

/-- The method `manager.ReadCommitted`. -/
def ReadCommitted (m : Store) (ctx : Ctx) (f : Handler) (hist : List Event) :
    Outcome × List Event :=
  let txOpts : TxOptions := ⟨pgx.ReadCommitted⟩
  transaction m ctx txOpts f hist

/-- The handles on which `Commit` is called in a list of events, in order. -/
def commitCalls : List Event → List Tx
  | [] => []
  | .Commit tx _ :: rest => tx :: commitCalls rest
  | _ :: rest => commitCalls rest

/-- The handles on which `Rollback` is called in a list of events, in order. -/
def rollbackCalls : List Event → List Tx
  | [] => []
  | .Rollback tx _ :: rest => tx :: rollbackCalls rest
  | _ :: rest => rollbackCalls rest

/-- Number of `BeginTx` calls in a list of events. -/
def beginCalls : List Event → Nat
  | [] => 0
  | .BeginTx _ _ :: rest => beginCalls rest + 1
  | _ :: rest => beginCalls rest

/-- The contexts the manager invoked a handler with, in order. -/
def handlerCalls : List Event → List Ctx
  | [] => []
  | .Handler ctx :: rest => ctx :: handlerCalls rest
  | _ :: rest => handlerCalls rest

/-- User code that leaves the transaction to the manager: among its events
there is no `BeginTx`, `Commit` or `Rollback` call of its own. -/
def quiet (evs : List Event) : Prop :=
  beginCalls evs = 0 ∧ commitCalls evs = [] ∧ rollbackCalls evs = []

instance (evs : List Event) : Decidable (quiet evs) := by
  unfold quiet; infer_instance

/-- The error the deferred function leaves in the named result after it
called `Rollback` for the error `e` and `Rollback` answered `r`. -/
def afterRollback (e : GoError) (r : Option GoError) : GoError :=
  match r with
  | some errRollback => .withMessage e ("rollback error: " ++ errRollback.Error)
  | none => e

/-- The run of the handler inside `transaction` after `BeginTx` returned `tx`:
the handler gets the context with the handle, and the history with the
`BeginTx` call and its own invocation. -/
def handlerRun (fn : Handler) (ctx : Ctx) (opts : TxOptions) (tx : Tx) (hist : List Event) :
    Outcome × List Event :=
  fn (MakeContextTx ctx tx) (hist ++ [.BeginTx ctx opts, .Handler (MakeContextTx ctx tx)])

/-- The run of the innermost handler of a nest of depth `n` that begins the
transaction `tx`: it gets the context with the handle, and the history with
the `BeginTx` call and the `n` handler invocations around it. -/
def leafRun (leaf : Handler) (ctx : Ctx) (opts : TxOptions) (tx : Tx) (n : Nat)
    (hist : List Event) : Outcome × List Event :=
  leaf (MakeContextTx ctx tx)
    (hist ++ .BeginTx ctx opts :: List.replicate n (.Handler (MakeContextTx ctx tx)))

/-- The call with which the manager ends the transaction `tx` after the
handler ended with `o`: `Commit` after a nil result, `Rollback` otherwise. -/
def terminalCall (o : Outcome) (tx : Tx) (ctx : Ctx) : Event :=
  match o with
  | .ret none => .Commit tx ctx
  | _ => .Rollback tx ctx

/-- The options of `ReadCommitted`: `pgx.TxOptions{IsoLevel: pgx.ReadCommitted}`. -/
def txOpts : TxOptions := ⟨pgx.ReadCommitted⟩

/-- A store on which everything succeeds; `BeginTx` hands out the handle 7. -/
def storeOk : Store :=
  { BeginTx := fun _ _ _ => .ok 7, Commit := fun _ _ _ => none, Rollback := fun _ _ _ => none }

/-- A store whose `BeginTx` fails. -/
def storeBeginFails : Store :=
  { BeginTx := fun _ _ _ => .error (.fundamental "connection refused"),
    Commit := fun _ _ _ => none, Rollback := fun _ _ _ => none }

/-- A store whose `Commit` and `Rollback` fail. -/
def storeEndFails : Store :=
  { BeginTx := fun _ _ _ => .ok 7,
    Commit := fun _ _ _ => some (.fundamental "conn closed"),
    Rollback := fun _ _ _ => some (.fundamental "tx is closed") }

/-- A handler that does one operation and returns nil. -/
def workOk : Handler := fun _ _ => (.ret none, [.Op "insert user"])

/-- A handler that does one operation and returns an error. -/
def workFails : Handler := fun _ _ => (.ret (some (.fundamental "duplicate key")), [.Op "insert user"])

/-- A handler that panics. -/
def workPanics : Handler := fun _ _ => (.panic "index out of range", [.Op "insert user"])

/-- The handler of nesting depth `n`: `n` invocations of `ReadCommitted`, each
passing on the context it received, around the innermost handler `leaf`. -/
def nest (m : Store) : Nat → Handler → Handler
  | 0, leaf => leaf
  | n + 1, leaf => fun ctx hist => ReadCommitted m ctx (nest m n leaf) hist

/-! ## pg adapter (`pkg/db/pg`) -/

/-- The struct `db.Query`. -/
structure Query where
  Name : String
  QueryRaw : String
deriving DecidableEq, Repr

/-- A positional query argument. -/
abbrev Arg := String

/-- Where a statement is sent: the transaction handle or the shared pool. -/
inductive Target where
  | tx (h : Tx)
  | pool
deriving DecidableEq, Repr

/-- The driver method that is called on the target. -/
inductive DriverOp where
  | Exec
  | Query
  | QueryRow
deriving DecidableEq, Repr

/-- One call into the driver: `target.op(ctx, sql, args...)`. -/
structure DriverCall where
  target : Target
  op : DriverOp
  ctx : Ctx
  sql : String
  args : List Arg
deriving DecidableEq, Repr

/-- What an adapter operation does: it writes a log line or calls the driver. -/
inductive Effect where
  | log (line : String)
  | call (c : DriverCall)
deriving DecidableEq, Repr

/-- Result rows of a query. -/
abbrev Rows := List (List String)

/-- The collaborators of the adapter that are not part of it: the answers of
the driver, the scanners of `pgxscan`, and `prettier.Pretty` with the dollar
placeholder (package `pkg/db/prettier`, used for logging only). -/
structure Driver where
  Pretty : String → List Arg → String
  Exec : Target → Ctx → String → List Arg → String × Option GoError
  Query : Target → Ctx → String → List Arg → Except GoError Rows
  QueryRow : Target → Ctx → String → List Arg → List String
  ScanOne : Rows → Option GoError
  ScanAll : Rows → Option GoError

/-- The function `logQuery`. -/
def logQuery (d : Driver) (q : Query) (args : List Arg) : List Effect :=
  [.log ("query: " ++ q.Name ++ " sql: " ++ d.Pretty q.QueryRaw args ++ "\n")]

/-- The method `pg.ExecContext`. -/
def ExecContext (d : Driver) (ctx : Ctx) (q : Query) (args : List Arg) :
    (String × Option GoError) × List Effect :=
  match txFromCtx ctx with
  | some tx =>
    (d.Exec (.tx tx) ctx q.QueryRaw args,
      logQuery d q args ++ [.call ⟨.tx tx, .Exec, ctx, q.QueryRaw, args⟩])
  | none =>
    (d.Exec .pool ctx q.QueryRaw args,
      logQuery d q args ++ [.call ⟨.pool, .Exec, ctx, q.QueryRaw, args⟩])

/-- The method `pg.QueryContext`. -/
def QueryContext (d : Driver) (ctx : Ctx) (q : Query) (args : List Arg) :
    Except GoError Rows × List Effect :=
  match txFromCtx ctx with
  | some tx =>
    (d.Query (.tx tx) ctx q.QueryRaw args, [.call ⟨.tx tx, .Query, ctx, q.QueryRaw, args⟩])
  | none =>
    (d.Query .pool ctx q.QueryRaw args, [.call ⟨.pool, .Query, ctx, q.QueryRaw, args⟩])

/-- The method `pg.QueryRowContext`. -/
def QueryRowContext (d : Driver) (ctx : Ctx) (q : Query) (args : List Arg) :
    List String × List Effect :=
  match txFromCtx ctx with
  | some tx =>
    (d.QueryRow (.tx tx) ctx q.QueryRaw args,
      logQuery d q args ++ [.call ⟨.tx tx, .QueryRow, ctx, q.QueryRaw, args⟩])
  | none =>
    (d.QueryRow .pool ctx q.QueryRaw args,
      logQuery d q args ++ [.call ⟨.pool, .QueryRow, ctx, q.QueryRaw, args⟩])

/-- The method `pg.ScanOneContext`. -/
def ScanOneContext (d : Driver) (ctx : Ctx) (q : Query) (args : List Arg) :
    Option GoError × List Effect :=
  let r := QueryContext d ctx q args
  match r.1 with
  | .error err => (some err, logQuery d q args ++ r.2)
  | .ok row => (d.ScanOne row, logQuery d q args ++ r.2)

/-- The method `pg.ScanAllContext`. -/
def ScanAllContext (d : Driver) (ctx : Ctx) (q : Query) (args : List Arg) :
    Option GoError × List Effect :=
  let r := QueryContext d ctx q args
  match r.1 with
  | .error err => (some err, logQuery d q args ++ r.2)
  | .ok rows => (d.ScanAll rows, logQuery d q args ++ r.2)

/-- The driver calls among the effects of an operation, in order. -/
def driverCalls : List Effect → List DriverCall
  | [] => []
  | .call c :: rest => c :: driverCalls rest
  | .log _ :: rest => driverCalls rest

/-- The data-access operations of the adapter on one context, query and
argument list: each with the driver method it is to call and its effects.
The two scan operations go through `QueryContext`. -/
def dataAccessOps (d : Driver) (ctx : Ctx) (q : Query) (args : List Arg) :
    List (DriverOp × List Effect) :=
  [(.Exec, (ExecContext d ctx q args).2),
   (.Query, (QueryContext d ctx q args).2),
   (.QueryRow, (QueryRowContext d ctx q args).2),
   (.Query, (ScanOneContext d ctx q args).2),
   (.Query, (ScanAllContext d ctx q args).2)]

/-- A driver that answers every statement with success and no rows. -/
def driverEmpty : Driver :=
  { Pretty := fun sql _ => sql,
    Exec := fun _ _ _ _ => ("OK", none),
    Query := fun _ _ _ _ => .ok [],
    QueryRow := fun _ _ _ _ => [],
    ScanOne := fun _ => some (.fundamental "no rows in result set"),
    ScanAll := fun _ => none }

/-- A query for the examples. -/
def queryUser : Query := ⟨"user_repository.Get", "SELECT id FROM users WHERE id = $1"⟩

/-! ## Closer (`pkg/closer`) -/

/-- A registered `func() error`: its identity and the error it returns. -/
structure Callback where
  id : Nat
  result : Option GoError
deriving DecidableEq, Repr

/-- The struct `Closer`: `onceDone` is the state of `once`, `doneClosed`
whether the channel `done` is closed, `funcs` the registry. -/
structure Closer where
  onceDone : Bool
  doneClosed : Bool
  funcs : List Callback
deriving DecidableEq, Repr

/-- What a closer does that can be observed: it runs a callback, or logs. -/
inductive CloserEvent where
  | ran (f : Callback)
  | logged (line : String)
deriving DecidableEq, Repr

/-- The order in which the goroutines started by `CloseAll` get to run: any
rearrangement of the callbacks, each of them running once. -/
structure Schedule where
  order : List Callback → List Callback
  perm : ∀ l, List.Perm (order l) l

/-- The function `New` without signals. -/
def Closer.New : Closer := ⟨false, false, []⟩

/-- The method `Closer.Add`. -/
def Closer.Add (c : Closer) (f : List Callback) : Closer :=
  { c with funcs := c.funcs ++ f }

/-- One goroutine of `CloseAll`: run the callback, and the receiving loop logs
its error if it returned one. -/
def runCallback (f : Callback) : List CloserEvent :=
  match f.result with
  | some err => [.ran f, .logged ("error returned from Closer: " ++ err.Error ++ "\n")]
  | none => [.ran f]

/-- The method `Closer.CloseAll`. -/
def Closer.CloseAll (s : Schedule) (c : Closer) : Closer × List CloserEvent :=
  if c.onceDone then (c, [])
  else
    let funcs := c.funcs
    ({ onceDone := true, doneClosed := true, funcs := [] },
      (s.order funcs).flatMap runCallback)

/-- A call on a closer. -/
inductive CloserOp where
  | Add (f : List Callback)
  | CloseAll
deriving DecidableEq, Repr

/-- A sequence of calls on a closer, one after the other. -/
def runOps (s : Schedule) : List CloserOp → Closer → Closer × List CloserEvent
  | [], c => (c, [])
  | .Add f :: ops, c => runOps s ops (c.Add f)
  | .CloseAll :: ops, c =>
    let r := c.CloseAll s
    let r' := runOps s ops r.1
    (r'.1, r.2 ++ r'.2)

/-- The callbacks that were run, in the order of the events. -/
def executed : List CloserEvent → List Callback
  | [] => []
  | .ran f :: rest => f :: executed rest
  | .logged _ :: rest => executed rest

/-- The schedule that runs the goroutines in the reverse of the order in
which they were started. -/
def scheduleReverse : Schedule :=
  { order := List.reverse, perm := fun l => List.reverse_perm l }

/-- Two callbacks for the examples: one succeeds, one returns an error. -/
def callbackA : Callback := ⟨1, none⟩

/-- The callback that returns an error. -/
def callbackB : Callback := ⟨2, some (.fundamental "pool already closed")⟩

/-! ## Redis client (`pkg/cache/redis`) -/

/-- The type `time.Duration`: a count of nanoseconds (an int64). -/
abbrev Duration := Int

/-- The constant `time.Second`. -/
def Second : Duration := 1000000000

/-- The constant `time.Minute`. -/
def Minute : Duration := 60 * Second

/-- The largest int64. -/
def maxInt64 : Int := 9223372036854775807

/-- Rounding of a rational to the nearest integer, ties to even. -/
def roundHalfEven (q : ℚ) : Int :=
  let f := ⌊q⌋
  let r := q - f
  if r < 1 / 2 then f
  else if 1 / 2 < r then f + 1
  else if f % 2 = 0 then f else f + 1

/-- Rounding of a rational to the nearest float64 (53 bits of precision, ties
to even), in the range of normal numbers. -/
def f64 (x : ℚ) : ℚ :=
  if x = 0 then 0
  else
    let e : Int := Int.log 2 |x| - 52
    (roundHalfEven (x / (2 : ℚ) ^ e) : ℚ) * (2 : ℚ) ^ e

/-- The method `Duration.Seconds` of the standard library:
`float64(d / Second) + float64(d % Second) / 1e9`, with truncated integer
division and float64 arithmetic. -/
def Duration.Seconds (d : Duration) : ℚ :=
  let sec := Int.tdiv d Second
  let nsec := Int.tmod d Second
  f64 (f64 sec + f64 (f64 nsec / f64 1000000000))

/-- The conversion `int(x)` of a float64: truncation towards zero (`int` has
64 bits, which holds the seconds of every Duration). -/
def intOfFloat (x : ℚ) : Int :=
  if 0 ≤ x then ⌊x⌋ else ⌈x⌉

/-- An argument of a Redis command. -/
inductive RedisArg where
  | str (s : String)
  | int (n : Int)
deriving DecidableEq, Repr

/-- A Redis command as passed to `conn.Do`. -/
structure Command where
  name : String
  args : List RedisArg
deriving DecidableEq, Repr

/-- A pooled connection: the error `Do` answers a command with, and the error
of `Close`. -/
structure Conn where
  Do : Command → Option GoError
  Close : Option GoError

/-- What the client does on the connection or the log. -/
inductive RedisEvent where
  | sent (c : Command)
  | closed
  | logged (line : String)
deriving DecidableEq, Repr

/-- The struct `Client`: the connection its pool hands out (or the error of
`pool.GetContext`) and the configured connection timeout. -/
structure Client where
  GetContext : Int → Except GoError Conn
  ConnTimeout : Int

/-- The method `Client.getConnect`. -/
def Client.getConnect (c : Client) : Except GoError Conn × List RedisEvent :=
  match c.GetContext c.ConnTimeout with
  | .error err =>
    (.error err, [.logged ("failed to get Redis connection: " ++ err.Error ++ "\n"), .closed])
  | .ok conn => (.ok conn, [])

/-- The method `Client.execute`: the deferred close assigns a local variable,
so the result is the one of the handler. -/
def Client.execute (c : Client) (handler : Conn → Option GoError × List RedisEvent) :
    Option GoError × List RedisEvent :=
  let g := c.getConnect
  match g.1 with
  | .error err => (some err, g.2)
  | .ok conn =>
    let r := handler conn
    let closing : List RedisEvent :=
      match conn.Close with
      | some err => [.closed, .logged ("failed to close redis connection: " ++ err.Error ++ "\n")]
      | none => [.closed]
    (r.1, g.2 ++ r.2 ++ closing)

/-- The method `Client.Expire`. -/
def Client.Expire (c : Client) (key : String) (expiration : Duration) :
    Option GoError × List RedisEvent :=
  c.execute (fun conn =>
    let cmd : Command := ⟨"EXPIRE", [.str key, .int (intOfFloat (Duration.Seconds expiration))]⟩
    (conn.Do cmd, [.sent cmd]))

/-- The commands sent among the events of a client operation, in order. -/
def sentCommands : List RedisEvent → List Command
  | [] => []
  | .sent c :: rest => c :: sentCommands rest
  | _ :: rest => sentCommands rest


/-- A connection on which every command and the close succeed. -/
def connOk : Conn := { Do := fun _ => none, Close := none }

/-- A client whose pool hands out the succeeding connection. -/
def clientOk : Client := { GetContext := fun _ => .ok connOk, ConnTimeout := 5 }

/-! ## Lemmas on event lists -/

theorem commitCalls_append (a b : List Event) :
    commitCalls (a ++ b) = commitCalls a ++ commitCalls b := by
  induction a with
  | nil => rfl
  | cons e a ih => cases e <;> simp [commitCalls, ih]

theorem rollbackCalls_append (a b : List Event) :
    rollbackCalls (a ++ b) = rollbackCalls a ++ rollbackCalls b := by
  induction a with
  | nil => rfl
  | cons e a ih => cases e <;> simp [rollbackCalls, ih]

theorem beginCalls_append (a b : List Event) :
    beginCalls (a ++ b) = beginCalls a + beginCalls b := by
  induction a with
  | nil => simp [beginCalls]
  | cons e a ih => cases e <;> simp [beginCalls, ih]; omega

theorem handlerCalls_append (a b : List Event) :
    handlerCalls (a ++ b) = handlerCalls a ++ handlerCalls b := by
  induction a with
  | nil => rfl
  | cons e a ih => cases e <;> simp [handlerCalls, ih]

/-- The options `ReadCommitted` passes to `transaction`. -/
theorem readCommitted_eq (m : Store) (ctx : Ctx) (fn : Handler) (hist : List Event) :
    ReadCommitted m ctx fn hist = transaction m ctx txOpts fn hist := rfl

/-- A call of `transaction` that begins a transaction continues in `begun`. -/
theorem transaction_begun (m : Store) (ctx : Ctx) (opts : TxOptions) (fn : Handler)
    (hist : List Event) (tx : Tx) (hctx : txFromCtx ctx = none)
    (hbegin : m.BeginTx ctx opts hist = .ok tx) :
    transaction m ctx opts fn hist = transaction.begun m ctx opts tx fn hist := by
  unfold transaction
  simp only [hctx, hbegin]

/-- When the handler returns nil, the deferred function commits. -/
theorem begun_ret_nil (m : Store) (ctx : Ctx) (opts : TxOptions) (fn : Handler)
    (hist : List Event) (tx : Tx)
    (hw : (fn (MakeContextTx ctx tx)
      (hist ++ [.BeginTx ctx opts, .Handler (MakeContextTx ctx tx)])).1 = .ret none) :
    transaction.begun m ctx opts tx fn hist =
      (.ret (errors.Wrap (m.Commit tx (MakeContextTx ctx tx)
          (hist ++ [.BeginTx ctx opts, .Handler (MakeContextTx ctx tx)] ++
            (fn (MakeContextTx ctx tx)
              (hist ++ [.BeginTx ctx opts, .Handler (MakeContextTx ctx tx)])).2))
          "transaction commit failed"),
        [.BeginTx ctx opts, .Handler (MakeContextTx ctx tx)] ++
          (fn (MakeContextTx ctx tx)
            (hist ++ [.BeginTx ctx opts, .Handler (MakeContextTx ctx tx)])).2 ++
          [.Commit tx (MakeContextTx ctx tx)]) := by
  unfold transaction.begun
  simp only [hw, transaction.deferred]
  cases m.Commit tx (MakeContextTx ctx tx)
      (hist ++ [.BeginTx ctx opts, .Handler (MakeContextTx ctx tx)] ++
        (fn (MakeContextTx ctx tx)
          (hist ++ [.BeginTx ctx opts, .Handler (MakeContextTx ctx tx)])).2) <;>
    simp [errors.Wrap]

/-- When the handler returns an error, the deferred function rolls back. -/
theorem begun_ret_err (m : Store) (ctx : Ctx) (opts : TxOptions) (fn : Handler)
    (hist : List Event) (tx : Tx) (e : GoError)
    (hw : (fn (MakeContextTx ctx tx)
      (hist ++ [.BeginTx ctx opts, .Handler (MakeContextTx ctx tx)])).1 = .ret (some e)) :
    transaction.begun m ctx opts tx fn hist =
      (.ret (some (afterRollback
          (.withMessage e "failed executing code inside transaction")
          (m.Rollback tx (MakeContextTx ctx tx)
            (hist ++ [.BeginTx ctx opts, .Handler (MakeContextTx ctx tx)] ++
              (fn (MakeContextTx ctx tx)
                (hist ++ [.BeginTx ctx opts, .Handler (MakeContextTx ctx tx)])).2)))),
        [.BeginTx ctx opts, .Handler (MakeContextTx ctx tx)] ++
          (fn (MakeContextTx ctx tx)
            (hist ++ [.BeginTx ctx opts, .Handler (MakeContextTx ctx tx)])).2 ++
          [.Rollback tx (MakeContextTx ctx tx)]) := by
  unfold transaction.begun
  simp only [hw, transaction.deferred, errors.Wrap]
  cases m.Rollback tx (MakeContextTx ctx tx)
      (hist ++ [.BeginTx ctx opts, .Handler (MakeContextTx ctx tx)] ++
        (fn (MakeContextTx ctx tx)
          (hist ++ [.BeginTx ctx opts, .Handler (MakeContextTx ctx tx)])).2) <;>
    simp [errors.Wrap, errors.Wrapf, afterRollback]

/-- When the handler panics, the deferred function recovers and rolls back. -/
theorem begun_panic (m : Store) (ctx : Ctx) (opts : TxOptions) (fn : Handler)
    (hist : List Event) (tx : Tx) (v : String)
    (hw : (fn (MakeContextTx ctx tx)
      (hist ++ [.BeginTx ctx opts, .Handler (MakeContextTx ctx tx)])).1 = .panic v) :
    transaction.begun m ctx opts tx fn hist =
      (.ret (some (afterRollback
          (errors.Errorf ("panic recovered: " ++ v))
          (m.Rollback tx (MakeContextTx ctx tx)
            (hist ++ [.BeginTx ctx opts, .Handler (MakeContextTx ctx tx)] ++
              (fn (MakeContextTx ctx tx)
                (hist ++ [.BeginTx ctx opts, .Handler (MakeContextTx ctx tx)])).2)))),
        [.BeginTx ctx opts, .Handler (MakeContextTx ctx tx)] ++
          (fn (MakeContextTx ctx tx)
            (hist ++ [.BeginTx ctx opts, .Handler (MakeContextTx ctx tx)])).2 ++
          [.Rollback tx (MakeContextTx ctx tx)]) := by
  unfold transaction.begun
  simp only [hw, transaction.deferred]
  cases m.Rollback tx (MakeContextTx ctx tx)
      (hist ++ [.BeginTx ctx opts, .Handler (MakeContextTx ctx tx)] ++
        (fn (MakeContextTx ctx tx)
          (hist ++ [.BeginTx ctx opts, .Handler (MakeContextTx ctx tx)])).2) <;>
    simp [errors.Wrap, errors.Wrapf, afterRollback]

/-! ## Lemmas on strings -/

theorem startsWith_append (s b : List Char) : startsWith (s ++ b) s = true := by
  induction s with
  | nil => cases b <;> rfl
  | cons c s ih => simp [startsWith, ih]

theorem containsChars_of_startsWith (s sub : List Char) (h : startsWith s sub = true) :
    containsChars s sub = true := by
  cases s with
  | nil => simpa [containsChars] using h
  | cons c s => simp [containsChars, h]

theorem containsChars_mid (a s b : List Char) : containsChars (a ++ (s ++ b)) s = true := by
  induction a with
  | nil => exact containsChars_of_startsWith _ _ (startsWith_append s b)
  | cons c a ih =>
    show containsChars (c :: (a ++ (s ++ b))) s = true
    simp [containsChars, ih]

theorem contains_mid (a s b : String) : strings.Contains (a ++ (s ++ b)) s = true := by
  unfold strings.Contains
  rw [String.data_append, String.data_append]
  exact containsChars_mid _ _ _

theorem contains_end (a s : String) : strings.Contains (a ++ s) s = true := by
  unfold strings.Contains
  rw [String.data_append]
  have h := containsChars_mid a.data s.data []
  simpa using h

/-! ## Transaction manager: the claims -/

/-- C1: when `ReadCommitted` is called with a context without a transaction
handle and `BeginTx` succeeds with the handle `tx`, then for a handler that
makes no `BeginTx`, `Commit` or `Rollback` call of its own: if the handler
returns nil, the events of the call are the `BeginTx`, the invocation of the
handler, the handler's events and one `Commit` on `tx`, so that `Commit` is
called exactly once, on `tx`, and `Rollback` never; if the handler returns a
non-nil error, the last event is one `Rollback` on `tx` instead, so that
`Rollback` is called exactly once, on `tx`, and `Commit` never. What `Commit`
and `Rollback` answer does not matter. -/
theorem C1_commit_or_rollback_exactly_once (m : Store) (ctx : Ctx) (fn : Handler)
    (hist : List Event) (tx : Tx)
    (hctx : txFromCtx ctx = none)
    (hbegin : m.BeginTx ctx txOpts hist = .ok tx)
    (hquiet : quiet (handlerRun fn ctx txOpts tx hist).2) :
    ((handlerRun fn ctx txOpts tx hist).1 = .ret none →
      (ReadCommitted m ctx fn hist).2 =
        [.BeginTx ctx txOpts, .Handler (MakeContextTx ctx tx)] ++
          (handlerRun fn ctx txOpts tx hist).2 ++ [.Commit tx (MakeContextTx ctx tx)] ∧
      commitCalls (ReadCommitted m ctx fn hist).2 = [tx] ∧
      rollbackCalls (ReadCommitted m ctx fn hist).2 = []) ∧
    (∀ e : GoError, (handlerRun fn ctx txOpts tx hist).1 = .ret (some e) →
      (ReadCommitted m ctx fn hist).2 =
        [.BeginTx ctx txOpts, .Handler (MakeContextTx ctx tx)] ++
          (handlerRun fn ctx txOpts tx hist).2 ++ [.Rollback tx (MakeContextTx ctx tx)] ∧
      rollbackCalls (ReadCommitted m ctx fn hist).2 = [tx] ∧
      commitCalls (ReadCommitted m ctx fn hist).2 = []) := by
  obtain ⟨_, hc, hr⟩ := hquiet
  rw [readCommitted_eq, transaction_begun m ctx txOpts fn hist tx hctx hbegin]
  unfold handlerRun at *
  constructor
  · intro hw
    rw [begun_ret_nil m ctx txOpts fn hist tx hw]
    simp [commitCalls_append, rollbackCalls_append, hc, hr, commitCalls, rollbackCalls]
  · intro e hw
    rw [begun_ret_err m ctx txOpts fn hist tx e hw]
    simp [commitCalls_append, rollbackCalls_append, hc, hr, commitCalls, rollbackCalls]

/-- Witness of C1: the succeeding store and the handler that returns nil. -/
theorem C1_witness :
    (handlerRun workOk [] txOpts 7 []).1 = .ret none ∧
    commitCalls (ReadCommitted storeOk [] workOk []).2 = [7] ∧
    rollbackCalls (ReadCommitted storeOk [] workOk []).2 = [] :=
  ⟨rfl, ((C1_commit_or_rollback_exactly_once storeOk [] workOk [] 7 rfl rfl
    (by decide)).1 rfl).2⟩

/-- An invocation of `transaction` whose context carries a handle only invokes
the handler, with the same context, and returns what the handler returns. -/
theorem transaction_nested (m : Store) (ctx : Ctx) (opts : TxOptions) (fn : Handler)
    (hist : List Event) (h : Tx) (hctx : txFromCtx ctx = some h) :
    transaction m ctx opts fn hist =
      ((fn ctx (hist ++ [.Handler ctx])).1, .Handler ctx :: (fn ctx (hist ++ [.Handler ctx])).2) := by
  unfold transaction
  simp only [hctx]

/-- The handle placed by `MakeContextTx` is the one the probe finds. -/
theorem txFromCtx_MakeContextTx (ctx : Ctx) (tx : Tx) :
    txFromCtx (MakeContextTx ctx tx) = some tx := by
  simp [txFromCtx, MakeContextTx, Ctx.Value]

/-- A nest of `k` invocations in a context that carries a handle: `k` handler
invocations with that context, then the innermost handler. -/
theorem nest_inner (m : Store) (leaf : Handler) (ctx : Ctx) (h : Tx)
    (hctx : txFromCtx ctx = some h) (k : Nat) (hist : List Event) :
    nest m k leaf ctx hist =
      ((leaf ctx (hist ++ List.replicate k (.Handler ctx))).1,
        List.replicate k (.Handler ctx) ++
          (leaf ctx (hist ++ List.replicate k (.Handler ctx))).2) := by
  induction k generalizing hist with
  | zero => simp [nest]
  | succ k ih =>
    show ReadCommitted m ctx (nest m k leaf) hist = _
    rw [readCommitted_eq, transaction_nested m ctx txOpts _ hist h hctx, ih]
    simp [List.replicate_succ]

theorem commitCalls_replicate_handler (n : Nat) (c : Ctx) :
    commitCalls (List.replicate n (.Handler c)) = [] := by
  induction n with
  | zero => rfl
  | succ n ih => simpa [List.replicate_succ, commitCalls] using ih

theorem rollbackCalls_replicate_handler (n : Nat) (c : Ctx) :
    rollbackCalls (List.replicate n (.Handler c)) = [] := by
  induction n with
  | zero => rfl
  | succ n ih => simpa [List.replicate_succ, rollbackCalls] using ih

theorem beginCalls_replicate_handler (n : Nat) (c : Ctx) :
    beginCalls (List.replicate n (.Handler c)) = 0 := by
  induction n with
  | zero => rfl
  | succ n ih => simpa [List.replicate_succ, beginCalls] using ih

theorem handlerCalls_replicate_handler (n : Nat) (c : Ctx) :
    handlerCalls (List.replicate n (.Handler c)) = List.replicate n c := by
  induction n with
  | zero => rfl
  | succ n ih => simpa [List.replicate_succ, handlerCalls] using ih

/-- The events of a call of `begun`, whatever the outcome of the handler. -/
theorem begun_events (m : Store) (ctx : Ctx) (opts : TxOptions) (fn : Handler)
    (hist : List Event) (tx : Tx) :
    (transaction.begun m ctx opts tx fn hist).2 =
      [.BeginTx ctx opts, .Handler (MakeContextTx ctx tx)] ++
        (fn (MakeContextTx ctx tx)
          (hist ++ [.BeginTx ctx opts, .Handler (MakeContextTx ctx tx)])).2 ++
        [terminalCall (fn (MakeContextTx ctx tx)
          (hist ++ [.BeginTx ctx opts, .Handler (MakeContextTx ctx tx)])).1 tx
          (MakeContextTx ctx tx)] := by
  rcases hw : (fn (MakeContextTx ctx tx)
      (hist ++ [.BeginTx ctx opts, .Handler (MakeContextTx ctx tx)])).1 with e | v
  · cases e with
    | none => rw [begun_ret_nil m ctx opts fn hist tx hw, hw]; rfl
    | some e => rw [begun_ret_err m ctx opts fn hist tx e hw, hw]; rfl
  · rw [begun_panic m ctx opts fn hist tx v hw, hw]; rfl

/-- The events of a whole nest of depth `n + 1` that begins a transaction. -/
theorem nest_events (m : Store) (leaf : Handler) (ctx : Ctx) (tx : Tx) (n : Nat)
    (hist : List Event) (hctx : txFromCtx ctx = none)
    (hbegin : m.BeginTx ctx txOpts hist = .ok tx) :
    (nest m (n + 1) leaf ctx hist).2 =
      .BeginTx ctx txOpts :: (List.replicate (n + 1) (.Handler (MakeContextTx ctx tx)) ++
        (leafRun leaf ctx txOpts tx (n + 1) hist).2 ++
        [terminalCall (leafRun leaf ctx txOpts tx (n + 1) hist).1 tx (MakeContextTx ctx tx)]) := by
  show (ReadCommitted m ctx (nest m n leaf) hist).2 = _
  rw [readCommitted_eq, transaction_begun m ctx txOpts _ hist tx hctx hbegin, begun_events,
    nest_inner m leaf (MakeContextTx ctx tx) tx (txFromCtx_MakeContextTx ctx tx) n]
  simp [leafRun, List.replicate_succ]

/-- C2: for every nesting depth `n ≥ 2`, when `ReadCommitted` is called on a
context without a handle, `BeginTx` succeeds with `tx`, and the work calls
`ReadCommitted` again with the context it received, down to depth `n`, around
an innermost handler that makes no `BeginTx`, `Commit` or `Rollback` call of
its own: the events of the whole nest are one `BeginTx`, `n` handler
invocations that all get the context with the handle, the events of the
innermost handler, and one terminal call on `tx`; so there is exactly one
`BeginTx` and exactly one terminal call, a `Commit` or a `Rollback` and not
both. Every inner invocation, in the context with the handle, finds the
handle, produces no event but the invocation of its work with the unchanged
context, and returns what its work returns. -/
theorem C2_nested_one_begin_one_terminal (m : Store) (leaf : Handler) (ctx : Ctx) (tx : Tx)
    (n : Nat) (hist : List Event) (hn : 2 ≤ n)
    (hctx : txFromCtx ctx = none)
    (hbegin : m.BeginTx ctx txOpts hist = .ok tx)
    (hquiet : quiet (leafRun leaf ctx txOpts tx n hist).2) :
    (nest m n leaf ctx hist).2 =
      .BeginTx ctx txOpts :: (List.replicate n (.Handler (MakeContextTx ctx tx)) ++
        (leafRun leaf ctx txOpts tx n hist).2 ++
        [terminalCall (leafRun leaf ctx txOpts tx n hist).1 tx (MakeContextTx ctx tx)]) ∧
    beginCalls (nest m n leaf ctx hist).2 = 1 ∧
    (((leafRun leaf ctx txOpts tx n hist).1 = .ret none ∧
        commitCalls (nest m n leaf ctx hist).2 = [tx] ∧
        rollbackCalls (nest m n leaf ctx hist).2 = []) ∨
      ((leafRun leaf ctx txOpts tx n hist).1 ≠ .ret none ∧
        commitCalls (nest m n leaf ctx hist).2 = [] ∧
        rollbackCalls (nest m n leaf ctx hist).2 = [tx])) ∧
    handlerCalls (nest m n leaf ctx hist).2 =
      List.replicate n (MakeContextTx ctx tx) ++
        handlerCalls (leafRun leaf ctx txOpts tx n hist).2 ∧
    (txFromCtx (MakeContextTx ctx tx) = some tx ∧
      ∀ (work : Handler) (hist' : List Event),
        ReadCommitted m (MakeContextTx ctx tx) work hist' =
          ((work (MakeContextTx ctx tx) (hist' ++ [.Handler (MakeContextTx ctx tx)])).1,
            .Handler (MakeContextTx ctx tx) ::
              (work (MakeContextTx ctx tx) (hist' ++ [.Handler (MakeContextTx ctx tx)])).2)) := by
  obtain ⟨k, rfl⟩ : ∃ k, n = k + 1 := ⟨n - 1, by omega⟩
  obtain ⟨hb, hc, hr⟩ := hquiet
  have hev := nest_events m leaf ctx tx k hist hctx hbegin
  refine ⟨hev, ?_, ?_, ?_, txFromCtx_MakeContextTx ctx tx, ?_⟩
  · rw [hev]
    cases hw : (leafRun leaf ctx txOpts tx (k + 1) hist).1 with
    | ret e =>
      cases e <;>
        simp [beginCalls, beginCalls_append, beginCalls_replicate_handler, hb, terminalCall]
    | panic v =>
      simp [beginCalls, beginCalls_append, beginCalls_replicate_handler, hb, terminalCall]
  · rw [hev]
    cases hw : (leafRun leaf ctx txOpts tx (k + 1) hist).1 with
    | ret e =>
      cases e <;>
        simp [commitCalls, rollbackCalls, commitCalls_append, rollbackCalls_append,
          commitCalls_replicate_handler, rollbackCalls_replicate_handler, hc, hr, terminalCall]
    | panic v =>
      simp [commitCalls, rollbackCalls, commitCalls_append, rollbackCalls_append,
        commitCalls_replicate_handler, rollbackCalls_replicate_handler, hc, hr, terminalCall]
  · rw [hev]
    cases hw : (leafRun leaf ctx txOpts tx (k + 1) hist).1 with
    | ret e =>
      cases e <;>
        simp [handlerCalls, handlerCalls_append, handlerCalls_replicate_handler, terminalCall,
          List.replicate_succ]
    | panic v =>
      simp [handlerCalls, handlerCalls_append, handlerCalls_replicate_handler, terminalCall,
        List.replicate_succ]
  · intro work hist'
    rw [readCommitted_eq,
      transaction_nested m _ txOpts work hist' tx (txFromCtx_MakeContextTx ctx tx)]

/-- Witness of C2: a nest of depth 3 on the succeeding store. -/
theorem C2_witness :
    beginCalls (nest storeOk 3 workOk [] []).2 = 1 ∧
    commitCalls (nest storeOk 3 workOk [] []).2 = [7] ∧
    rollbackCalls (nest storeOk 3 workOk [] []).2 = [] := by
  have h := C2_nested_one_begin_one_terminal storeOk workOk [] 7 3 [] (by decide) rfl rfl
    (by decide)
  refine ⟨h.2.1, ?_, ?_⟩
  · rcases h.2.2.1 with h1 | h1
    · exact h1.2.1
    · exact absurd rfl h1.1
  · rcases h.2.2.1 with h1 | h1
    · exact h1.2.2
    · exact absurd rfl h1.1

/-- C3: when `ReadCommitted` is called with a context without a transaction
handle, `BeginTx` succeeds with `tx`, and the handler (which makes no
`BeginTx`, `Commit` or `Rollback` call of its own) panics with any value `v`,
then the call returns normally with a non-nil error (the recovered panic,
combined with the error of `Rollback` if it fails), its last event is one
`Rollback` on `tx`, `Rollback` is called exactly once and `Commit` never. -/
theorem C3_panic_is_rolled_back (m : Store) (ctx : Ctx) (fn : Handler)
    (hist : List Event) (tx : Tx) (v : String)
    (hctx : txFromCtx ctx = none)
    (hbegin : m.BeginTx ctx txOpts hist = .ok tx)
    (hquiet : quiet (handlerRun fn ctx txOpts tx hist).2)
    (hpanic : (handlerRun fn ctx txOpts tx hist).1 = .panic v) :
    (∃ err : GoError, (ReadCommitted m ctx fn hist).1 = .ret (some err)) ∧
    (ReadCommitted m ctx fn hist).1 =
      .ret (some (afterRollback (errors.Errorf ("panic recovered: " ++ v))
        (m.Rollback tx (MakeContextTx ctx tx)
          (hist ++ [.BeginTx ctx txOpts, .Handler (MakeContextTx ctx tx)] ++
            (handlerRun fn ctx txOpts tx hist).2)))) ∧
    (ReadCommitted m ctx fn hist).2 =
      [.BeginTx ctx txOpts, .Handler (MakeContextTx ctx tx)] ++
        (handlerRun fn ctx txOpts tx hist).2 ++ [.Rollback tx (MakeContextTx ctx tx)] ∧
    rollbackCalls (ReadCommitted m ctx fn hist).2 = [tx] ∧
    commitCalls (ReadCommitted m ctx fn hist).2 = [] := by
  obtain ⟨_, hc, hr⟩ := hquiet
  rw [readCommitted_eq, transaction_begun m ctx txOpts fn hist tx hctx hbegin]
  unfold handlerRun at *
  rw [begun_panic m ctx txOpts fn hist tx v hpanic]
  refine ⟨⟨_, rfl⟩, rfl, rfl, ?_, ?_⟩ <;>
    simp [commitCalls_append, rollbackCalls_append, hc, hr, commitCalls, rollbackCalls]

/-- Witness of C3: the panicking handler on the succeeding store. -/
theorem C3_witness :
    (ReadCommitted storeOk [] workPanics []).1 =
      .ret (some (.fundamental "panic recovered: index out of range")) ∧
    rollbackCalls (ReadCommitted storeOk [] workPanics []).2 = [7] ∧
    commitCalls (ReadCommitted storeOk [] workPanics []).2 = [] :=
  have h := C3_panic_is_rolled_back storeOk [] workPanics [] 7 "index out of range"
    rfl rfl (by decide) rfl
  ⟨h.2.1, h.2.2.2.1, h.2.2.2.2⟩

/-- C4: when `ReadCommitted` begins a new transaction, the handler returns a
non-nil error `e` and `Rollback` then returns a non-nil error `r`, the call
returns a non-nil error whose message contains both the message of `e` and
the message of `r` (it is `rollback error: r: failed executing code inside
transaction: e`), and whose chain of causes still ends in the cause of `e`. -/
theorem C4_rollback_failure_keeps_both_causes (m : Store) (ctx : Ctx) (fn : Handler)
    (hist : List Event) (tx : Tx) (e r : GoError)
    (hctx : txFromCtx ctx = none)
    (hbegin : m.BeginTx ctx txOpts hist = .ok tx)
    (hwork : (handlerRun fn ctx txOpts tx hist).1 = .ret (some e))
    (hroll : m.Rollback tx (MakeContextTx ctx tx)
      (hist ++ [.BeginTx ctx txOpts, .Handler (MakeContextTx ctx tx)] ++
        (handlerRun fn ctx txOpts tx hist).2) = some r) :
    ∃ err : GoError, (ReadCommitted m ctx fn hist).1 = .ret (some err) ∧
      strings.Contains err.Error e.Error = true ∧
      strings.Contains err.Error r.Error = true ∧
      err.Error = "rollback error: " ++ r.Error ++ ": " ++
        ("failed executing code inside transaction" ++ ": " ++ e.Error) ∧
      err.Cause = e.Cause := by
  rw [readCommitted_eq, transaction_begun m ctx txOpts fn hist tx hctx hbegin]
  unfold handlerRun at *
  rw [begun_ret_err m ctx txOpts fn hist tx e hwork, hroll]
  refine ⟨_, rfl, ?_, ?_, rfl, rfl⟩
  · simp only [afterRollback, GoError.Error]
    rw [← String.append_assoc _ _ e.Error]
    exact contains_end _ _
  · simp only [afterRollback, GoError.Error, String.append_assoc]
    exact contains_mid _ _ _

/-- Witness of C4: the failing handler on the store whose `Rollback` fails. -/
theorem C4_witness :
    ∃ err : GoError, (ReadCommitted storeEndFails [] workFails []).1 = .ret (some err) ∧
      strings.Contains err.Error "duplicate key" = true ∧
      strings.Contains err.Error "tx is closed" = true :=
  have h := C4_rollback_failure_keeps_both_causes storeEndFails [] workFails [] 7
    (.fundamental "duplicate key") (.fundamental "tx is closed") rfl rfl rfl rfl
  h.elim fun err he => ⟨err, he.1, he.2.1, he.2.2.1⟩

/-- C5, as stated, fails: when `BeginTx` fails, the returned error does not
carry the text `begin transaction failed`; its message is
`failed to begin transaction: connection refused`. -/
theorem C5_counterexample :
    ∃ err : GoError, (ReadCommitted storeBeginFails [] workOk []).1 = .ret (some err) ∧
      err.Error = "failed to begin transaction: connection refused" ∧
      strings.Contains err.Error "begin transaction failed" = false :=
  ⟨_, rfl, by decide, by decide⟩

/-- C5, amended: when `ReadCommitted` is called with a context without a
transaction handle and `BeginTx` returns a non-nil error `b`, the only event
is the `BeginTx` call (the handler is not invoked, neither `Commit` nor
`Rollback` is called, and the result does not depend on the handler), and the
call returns a non-nil error that wraps `b` with the annotation
`failed to begin transaction`: its message is that annotation, a colon and
the message of `b`, and its cause is the cause of `b`. -/
theorem C5_begin_failure (m : Store) (ctx : Ctx) (fn : Handler) (hist : List Event)
    (b : GoError)
    (hctx : txFromCtx ctx = none)
    (hbegin : m.BeginTx ctx txOpts hist = .error b) :
    ReadCommitted m ctx fn hist =
      (.ret (some (.withMessage b "failed to begin transaction")), [.BeginTx ctx txOpts]) ∧
    handlerCalls (ReadCommitted m ctx fn hist).2 = [] ∧
    commitCalls (ReadCommitted m ctx fn hist).2 = [] ∧
    rollbackCalls (ReadCommitted m ctx fn hist).2 = [] ∧
    GoError.Error (.withMessage b "failed to begin transaction") =
      "failed to begin transaction" ++ ": " ++ b.Error ∧
    strings.Contains (GoError.Error (.withMessage b "failed to begin transaction"))
      "failed to begin transaction" = true ∧
    GoError.Cause (.withMessage b "failed to begin transaction") = b.Cause := by
  have h : ReadCommitted m ctx fn hist =
      (.ret (some (.withMessage b "failed to begin transaction")), [.BeginTx ctx txOpts]) := by
    rw [readCommitted_eq]
    unfold transaction
    simp only [hctx, hbegin, errors.Wrap]
  refine ⟨h, ?_, ?_, ?_, rfl, ?_, rfl⟩
  · rw [h]; rfl
  · rw [h]; rfl
  · rw [h]; rfl
  · simp only [GoError.Error, String.append_assoc]
    have := contains_mid "" "failed to begin transaction" (": " ++ b.Error)
    simpa using this

/-- Witness of C5: the store whose `BeginTx` fails. -/
theorem C5_witness :
    ReadCommitted storeBeginFails [] workOk [] =
      (.ret (some (.withMessage (.fundamental "connection refused")
        "failed to begin transaction")), [.BeginTx [] txOpts]) :=
  (C5_begin_failure storeBeginFails [] workOk [] (.fundamental "connection refused")
    rfl rfl).1

/-- C6: a call of `ReadCommitted` with a context without a transaction handle
returns nil if and only if `BeginTx` succeeded, the handler returned nil
(without panicking) and `Commit` returned nil. When the handler returns nil
and `Commit` returns a non-nil error `c`, the result is a non-nil error that
wraps `c`: its message is `transaction commit failed`, a colon and the
message of `c`, so it contains `commit failed`, and its cause is that of `c`. -/
theorem C6_nil_iff_committed (m : Store) (ctx : Ctx) (fn : Handler) (hist : List Event)
    (hctx : txFromCtx ctx = none) :
    ((ReadCommitted m ctx fn hist).1 = .ret none ↔
      ∃ tx : Tx, m.BeginTx ctx txOpts hist = .ok tx ∧
        (handlerRun fn ctx txOpts tx hist).1 = .ret none ∧
        m.Commit tx (MakeContextTx ctx tx)
          (hist ++ [.BeginTx ctx txOpts, .Handler (MakeContextTx ctx tx)] ++
            (handlerRun fn ctx txOpts tx hist).2) = none) ∧
    (∀ (tx : Tx) (c : GoError), m.BeginTx ctx txOpts hist = .ok tx →
      (handlerRun fn ctx txOpts tx hist).1 = .ret none →
      m.Commit tx (MakeContextTx ctx tx)
        (hist ++ [.BeginTx ctx txOpts, .Handler (MakeContextTx ctx tx)] ++
          (handlerRun fn ctx txOpts tx hist).2) = some c →
      (ReadCommitted m ctx fn hist).1 =
          .ret (some (.withMessage c "transaction commit failed")) ∧
        GoError.Error (.withMessage c "transaction commit failed") =
          "transaction commit failed" ++ ": " ++ c.Error ∧
        strings.Contains (GoError.Error (.withMessage c "transaction commit failed"))
          "commit failed" = true ∧
        GoError.Cause (.withMessage c "transaction commit failed") = c.Cause) := by
  constructor
  · rw [readCommitted_eq]
    cases hbegin : m.BeginTx ctx txOpts hist with
    | error b =>
      have h : transaction m ctx txOpts fn hist =
          (.ret (some (.withMessage b "failed to begin transaction")),
            [.BeginTx ctx txOpts]) := by
        unfold transaction
        simp only [hctx, hbegin, errors.Wrap]
      rw [h]
      simp
    | ok tx =>
      rw [transaction_begun m ctx txOpts fn hist tx hctx hbegin]
      unfold handlerRun
      rcases hw : (fn (MakeContextTx ctx tx)
          (hist ++ [.BeginTx ctx txOpts, .Handler (MakeContextTx ctx tx)])).1 with e | v
      · cases e with
        | none =>
          rw [begun_ret_nil m ctx txOpts fn hist tx hw]
          cases hcm : m.Commit tx (MakeContextTx ctx tx)
            (hist ++ [.BeginTx ctx txOpts, .Handler (MakeContextTx ctx tx)] ++
              (fn (MakeContextTx ctx tx)
                (hist ++ [.BeginTx ctx txOpts, .Handler (MakeContextTx ctx tx)])).2) with
          | none =>
            simp only [errors.Wrap, true_iff]
            exact ⟨tx, rfl, hw, hcm⟩
          | some c =>
            simp only [errors.Wrap]
            constructor
            · intro h; cases h
            · rintro ⟨tx', htx, _, hc'⟩
              cases htx
              rw [hcm] at hc'
              cases hc'
        | some e =>
          rw [begun_ret_err m ctx txOpts fn hist tx e hw]
          constructor
          · intro h; cases h
          · rintro ⟨tx', htx, hw', _⟩
            cases htx
            rw [hw] at hw'
            cases hw'
      · rw [begun_panic m ctx txOpts fn hist tx v hw]
        constructor
        · intro h; cases h
        · rintro ⟨tx', htx, hw', _⟩
          cases htx
          rw [hw] at hw'
          cases hw'
  · intro tx c hbegin hw hcm
    rw [readCommitted_eq, transaction_begun m ctx txOpts fn hist tx hctx hbegin]
    unfold handlerRun at hw hcm
    rw [begun_ret_nil m ctx txOpts fn hist tx hw, hcm]
    refine ⟨rfl, rfl, ?_, rfl⟩
    simp only [GoError.Error, String.append_assoc]
    have h := contains_mid "transaction " "commit failed" (": " ++ c.Error)
    have h2 : "transaction " ++ ("commit failed" ++ (": " ++ c.Error)) =
        "transaction commit failed" ++ (": " ++ c.Error) := by
      rw [← String.append_assoc]
      rfl
    rw [h2] at h
    exact h

/-- Witness of C6: nil on the succeeding store, a commit failure otherwise. -/
theorem C6_witness :
    ((ReadCommitted storeOk [] workOk []).1 = .ret none ↔
      ∃ tx : Tx, storeOk.BeginTx [] txOpts [] = .ok tx ∧
        (handlerRun workOk [] txOpts tx []).1 = .ret none ∧
        storeOk.Commit tx (MakeContextTx [] tx)
          ([] ++ [.BeginTx [] txOpts, .Handler (MakeContextTx [] tx)] ++
            (handlerRun workOk [] txOpts tx []).2) = none) ∧
    (ReadCommitted storeEndFails [] workOk []).1 =
      .ret (some (.withMessage (.fundamental "conn closed") "transaction commit failed")) :=
  ⟨(C6_nil_iff_committed storeOk [] workOk [] rfl).1,
    ((C6_nil_iff_committed storeEndFails [] workOk [] rfl).2 7 (.fundamental "conn closed")
      rfl rfl rfl).1⟩

/-! ## pg adapter: routing -/

theorem driverCalls_append (a b : List Effect) :
    driverCalls (a ++ b) = driverCalls a ++ driverCalls b := by
  induction a with
  | nil => rfl
  | cons e a ih => cases e <;> simp [driverCalls, ih]

/-- C7: for every context, query and argument list, each data-access
operation of the adapter (`ExecContext`, `QueryContext`, `QueryRowContext`,
and `ScanOneContext`/`ScanAllContext` through `QueryContext`) makes exactly
one driver call, with the raw text of the query and the arguments: on the
transaction handle found in the context when the context carries one, and on
the shared pool when it carries none. So a call goes to the pool exactly when
the context carries no handle, and in a context made by `MakeContextTx` the
call goes to the handle that was placed there. -/
theorem C7_routing (d : Driver) (ctx : Ctx) (q : Query) (args : List Arg)
    (p : DriverOp × List Effect) (hp : p ∈ dataAccessOps d ctx q args) :
    (∀ tx : Tx, txFromCtx ctx = some tx →
      driverCalls p.2 = [⟨.tx tx, p.1, ctx, q.QueryRaw, args⟩]) ∧
    (txFromCtx ctx = none → driverCalls p.2 = [⟨.pool, p.1, ctx, q.QueryRaw, args⟩]) ∧
    ((∃ c ∈ driverCalls p.2, c.target = .pool) ↔ txFromCtx ctx = none) ∧
    (∀ tx : Tx, ∀ p' ∈ dataAccessOps d (MakeContextTx ctx tx) q args,
      driverCalls p'.2 = [⟨.tx tx, p'.1, MakeContextTx ctx tx, q.QueryRaw, args⟩]) := by
  have key : ∀ (c0 : Ctx) (p0 : DriverOp × List Effect), p0 ∈ dataAccessOps d c0 q args →
      driverCalls p0.2 = [⟨(match txFromCtx c0 with | some tx => Target.tx tx | none => .pool),
        p0.1, c0, q.QueryRaw, args⟩] := by
    intro c0 p0 h0
    simp only [dataAccessOps, List.mem_cons, List.mem_singleton, List.mem_nil_iff,
      or_false] at h0
    rcases h0 with h | h | h | h | h <;> subst h
    · unfold ExecContext
      cases txFromCtx c0 <;> simp [driverCalls, logQuery]
    · unfold QueryContext
      cases txFromCtx c0 <;> simp [driverCalls]
    · unfold QueryRowContext
      cases txFromCtx c0 <;> simp [driverCalls, logQuery]
    · unfold ScanOneContext QueryContext
      cases txFromCtx c0 <;> simp only [] <;>
        split <;> simp [driverCalls, logQuery]
    · unfold ScanAllContext QueryContext
      cases txFromCtx c0 <;> simp only [] <;>
        split <;> simp [driverCalls, logQuery]
  have hk := key ctx p hp
  refine ⟨?_, ?_, ?_, ?_⟩
  · intro tx htx
    rw [hk, htx]
  · intro hnone
    rw [hk, hnone]
  · rw [hk]
    cases htx : txFromCtx ctx <;> simp
  · intro tx p' hp'
    rw [key _ p' hp', txFromCtx_MakeContextTx]

/-- Witness of C7: `ScanOneContext` inside the transaction 7 queries on it. -/
theorem C7_witness :
    driverCalls (ScanOneContext driverEmpty (MakeContextTx [] 7) queryUser ["42"]).2 =
      [⟨.tx 7, .Query, MakeContextTx [] 7, "SELECT id FROM users WHERE id = $1", ["42"]⟩] :=
  (C7_routing driverEmpty (MakeContextTx [] 7) queryUser ["42"]
    (.Query, (ScanOneContext driverEmpty (MakeContextTx [] 7) queryUser ["42"]).2)
    (by simp [dataAccessOps])).1 7 rfl

/-! ## Closer -/

theorem executed_append (a b : List CloserEvent) :
    executed (a ++ b) = executed a ++ executed b := by
  induction a with
  | nil => rfl
  | cons e a ih => cases e <;> simp [executed, ih]

/-- Running a list of callbacks executes exactly these callbacks, in order. -/
theorem executed_flatMap_runCallback (l : List Callback) :
    executed (l.flatMap runCallback) = l := by
  induction l with
  | nil => rfl
  | cons f l ih =>
    rw [List.flatMap_cons, executed_append, ih]
    unfold runCallback
    cases f.result <;> simp [executed]

/-- The registry after a sequence of `Add` calls. -/
theorem funcs_foldl_Add (batches : List (List Callback)) (c : Closer) :
    (batches.foldl Closer.Add c).funcs = c.funcs ++ batches.flatten ∧
    (batches.foldl Closer.Add c).onceDone = c.onceDone := by
  induction batches generalizing c with
  | nil => simp
  | cons b bs ih =>
    rw [List.foldl_cons]
    obtain ⟨h1, h2⟩ := ih (c.Add b)
    rw [h1, h2]
    simp [Closer.Add]

/-- The first `CloseAll` runs the registry and empties it. -/
theorem closeAll_first (s : Schedule) (c : Closer) (h : c.onceDone = false) :
    c.CloseAll s =
      ({ onceDone := true, doneClosed := true, funcs := [] },
        (s.order c.funcs).flatMap runCallback) := by
  unfold Closer.CloseAll
  simp [h]

/-- Once `CloseAll` has been called, no sequence of calls runs anything. -/
theorem runOps_closed (s : Schedule) (ops : List CloserOp) (c : Closer)
    (h : c.onceDone = true) :
    (runOps s ops c).2 = [] ∧ (runOps s ops c).1.onceDone = true := by
  induction ops generalizing c with
  | nil => exact ⟨rfl, h⟩
  | cons op ops ih =>
    cases op with
    | Add f => exact ih (c.Add f) h
    | CloseAll =>
      have hc : c.CloseAll s = (c, []) := by
        unfold Closer.CloseAll
        simp [h]
      simp only [runOps, hc, List.nil_append]
      exact ih c h

/-- After `CloseAll` the one-shot gate is taken. -/
theorem closeAll_onceDone (s : Schedule) (c : Closer) : (c.CloseAll s).1.onceDone = true := by
  unfold Closer.CloseAll
  cases h : c.onceDone <;> simp [h]

/-- C8: for a closer made by `New` on which the batches of callbacks
`batches` were registered with `Add`, calling `CloseAll` `n ≥ 2` times, under
any schedule of the goroutines, runs exactly the registered callbacks, each
registration once (the callbacks that were run are a rearrangement of the
registered ones, so every callback is run as often as it was registered),
whatever the callbacks return: the first call runs all of them and leaves the
registry empty, and any number of later calls run nothing. -/
theorem C8_closeAll_runs_each_once (s : Schedule) (batches : List (List Callback))
    (n : Nat) (hn : 2 ≤ n) :
    List.Perm
      (executed (runOps s (List.replicate n .CloseAll)
        (batches.foldl Closer.Add Closer.New)).2) batches.flatten ∧
    (∀ f : Callback,
      (executed (runOps s (List.replicate n .CloseAll)
        (batches.foldl Closer.Add Closer.New)).2).count f = batches.flatten.count f) ∧
    List.Perm (executed ((batches.foldl Closer.Add Closer.New).CloseAll s).2)
      batches.flatten ∧
    ((batches.foldl Closer.Add Closer.New).CloseAll s).1.funcs = [] ∧
    (∀ k : Nat, (runOps s (List.replicate k .CloseAll)
      ((batches.foldl Closer.Add Closer.New).CloseAll s).1).2 = []) := by
  obtain ⟨k, rfl⟩ : ∃ k, n = k + 1 := ⟨n - 1, by omega⟩
  obtain ⟨hf, ho⟩ := funcs_foldl_Add batches Closer.New
  have hfirst := closeAll_first s (batches.foldl Closer.Add Closer.New) ho
  have hfuncs : (batches.foldl Closer.Add Closer.New).funcs = batches.flatten := by
    rw [hf]; simp [Closer.New]
  have hrest : ∀ j : Nat, (runOps s (List.replicate j .CloseAll)
      ((batches.foldl Closer.Add Closer.New).CloseAll s).1).2 = [] :=
    fun j => (runOps_closed s _ _ (closeAll_onceDone s _)).1
  have hone : List.Perm (executed ((batches.foldl Closer.Add Closer.New).CloseAll s).2)
      batches.flatten := by
    rw [hfirst, executed_flatMap_runCallback, hfuncs]
    exact s.perm _
  have hall : executed (runOps s (List.replicate (k + 1) .CloseAll)
      (batches.foldl Closer.Add Closer.New)).2 =
      executed ((batches.foldl Closer.Add Closer.New).CloseAll s).2 := by
    rw [List.replicate_succ]
    simp only [runOps]
    rw [hrest k, List.append_nil]
  refine ⟨?_, ?_, hone, ?_, hrest⟩
  · rw [hall]; exact hone
  · intro f
    rw [hall]
    exact hone.count_eq f
  · rw [hfirst]

/-- Witness of C8: two batches, three calls of `CloseAll`, reverse schedule. -/
theorem C8_witness :
    List.Perm
      (executed (runOps scheduleReverse (List.replicate 3 .CloseAll)
        ([[callbackA], [callbackB, callbackA]].foldl Closer.Add Closer.New)).2)
      [callbackA, callbackB, callbackA] :=
  (C8_closeAll_runs_each_once scheduleReverse [[callbackA], [callbackB, callbackA]] 3
    (by decide)).1

/-- C9: on a closer on which `CloseAll` has already been called (whatever was
called on it before and since), a call of `Add` returns the closer with the
callbacks appended to its registry and runs nothing, and no sequence of
later calls of `Add` and `CloseAll` runs anything: the callbacks passed to
that `Add` are never executed. -/
theorem C9_add_after_closeAll_never_runs (s : Schedule) (c : Closer)
    (since : List CloserOp) (f : List Callback) (later : List CloserOp) :
    ((runOps s since (c.CloseAll s).1).1.Add f).funcs =
      (runOps s since (c.CloseAll s).1).1.funcs ++ f ∧
    (runOps s later ((runOps s since (c.CloseAll s).1).1.Add f)).2 = [] ∧
    executed (runOps s later ((runOps s since (c.CloseAll s).1).1.Add f)).2 = [] ∧
    (runOps s (.Add f :: .CloseAll :: later) (runOps s since (c.CloseAll s).1).1).2 = [] := by
  have h1 := (runOps_closed s since _ (closeAll_onceDone s c)).2
  have h2 : ((runOps s since (c.CloseAll s).1).1.Add f).onceDone = true := h1
  have h3 := (runOps_closed s later _ h2).1
  refine ⟨rfl, h3, ?_, ?_⟩
  · rw [h3]; rfl
  · exact (runOps_closed s _ _ h1).1

/-! ## Redis client: expiry in whole seconds -/

theorem roundHalfEven_intCast (k : Int) : roundHalfEven (k : ℚ) = k := by
  unfold roundHalfEven
  simp

/-- A natural number below `2 ^ 53` is a float64: rounding leaves it as it is. -/
theorem f64_natCast (n : Nat) (h : n < 2 ^ 53) : f64 (n : ℚ) = n := by
  unfold f64
  by_cases h0 : n = 0
  · simp [h0]
  · have hq : (n : ℚ) ≠ 0 := by exact_mod_cast h0
    rw [if_neg hq]
    have habs : |(n : ℚ)| = (n : ℚ) := abs_of_nonneg (by positivity)
    have hlog : Nat.log 2 n < 53 := Nat.log_lt_of_lt_pow h0 h
    simp only [habs, Int.log_natCast]
    obtain ⟨j, hj⟩ : ∃ j : Nat, (Nat.log 2 n : Int) - 52 = -(j : Int) :=
      ⟨52 - Nat.log 2 n, by omega⟩
    rw [hj, zpow_neg, zpow_natCast]
    have hpos : ((2 : ℚ) ^ j) ≠ 0 := by positivity
    have hdiv : (n : ℚ) / ((2 : ℚ) ^ j)⁻¹ = (((n * 2 ^ j : Nat) : Int) : ℚ) := by
      rw [div_inv_eq_mul]
      push_cast
      ring
    rw [hdiv, roundHalfEven_intCast]
    push_cast
    field_simp

/-- The seconds of a duration of `n` whole seconds are exactly `n`. -/
theorem seconds_whole (n : Int) (hn : 0 ≤ n) (hrange : n * Second ≤ maxInt64) :
    Duration.Seconds (n * Second) = n := by
  obtain ⟨k, rfl⟩ := Int.eq_ofNat_of_zero_le hn
  have hk : k < 2 ^ 53 := by
    unfold Second maxInt64 at hrange
    have : (k : Int) < 2 ^ 53 := by omega
    exact_mod_cast this
  unfold Duration.Seconds
  have hs : Second ≠ 0 := by decide
  simp only [Int.mul_tdiv_cancel _ hs, Int.mul_tmod_left]
  have h0 : f64 ((0 : Int) : ℚ) = 0 := by simp [f64]
  have hk' : f64 (((k : Int) : ℚ)) = k := by
    have := f64_natCast k hk
    simpa using this
  rw [h0, hk']
  simp only [zero_div]
  have h00 : f64 0 = 0 := by simp [f64]
  rw [h00, add_zero]
  simpa using f64_natCast k hk

theorem intOfFloat_intCast (n : Int) (hn : 0 ≤ n) : intOfFloat (n : ℚ) = n := by
  unfold intOfFloat
  have : (0 : ℚ) ≤ n := by exact_mod_cast hn
  simp [this]

/-- C10: for every key and every duration of a non-negative whole number `n`
of seconds within the int64 range, the only command `Expire` sends is
`EXPIRE` with the key and the integer `n`, and it sends it exactly once, on
the connection the pool hands out (when the pool fails to hand out a
connection, nothing is sent); for a duration of 5 minutes the command is
`EXPIRE` with 300. -/
theorem C10_expire_whole_seconds (c : Client) (key : String) (n : Int)
    (hn : 0 ≤ n) (hrange : n * Second ≤ maxInt64) :
    (∀ conn : Conn, c.GetContext c.ConnTimeout = .ok conn →
      sentCommands (c.Expire key (n * Second)).2 = [⟨"EXPIRE", [.str key, .int n]⟩] ∧
      sentCommands (c.Expire key (5 * Minute)).2 = [⟨"EXPIRE", [.str key, .int 300]⟩]) ∧
    (∀ err : GoError, c.GetContext c.ConnTimeout = .error err →
      sentCommands (c.Expire key (n * Second)).2 = [] ∧
      (c.Expire key (n * Second)).1 = some err) ∧
    intOfFloat (Duration.Seconds (n * Second)) = n ∧
    intOfFloat (Duration.Seconds (5 * Minute)) = 300 := by
  have h5 : (5 : Int) * Minute = 300 * Second := by decide
  have conv : ∀ k : Int, 0 ≤ k → k * Second ≤ maxInt64 →
      intOfFloat (Duration.Seconds (k * Second)) = k := by
    intro k hk hr
    rw [seconds_whole k hk hr, intOfFloat_intCast k hk]
  have sent : ∀ (conn : Conn) (k : Int), c.GetContext c.ConnTimeout = .ok conn →
      0 ≤ k → k * Second ≤ maxInt64 →
      sentCommands (c.Expire key (k * Second)).2 = [⟨"EXPIRE", [.str key, .int k]⟩] := by
    intro conn k hconn hk hr
    unfold Client.Expire Client.execute Client.getConnect
    simp only [hconn, conv k hk hr]
    cases conn.Close <;> simp [sentCommands]
  refine ⟨?_, ?_, conv n hn hrange, ?_⟩
  · intro conn hconn
    refine ⟨sent conn n hconn hn hrange, ?_⟩
    rw [h5]
    exact sent conn 300 hconn (by decide) (by decide)
  · intro err herr
    unfold Client.Expire Client.execute Client.getConnect
    simp [herr, sentCommands]
  · rw [h5]
    exact conv 300 (by decide) (by decide)

/-- Witness of C10: two minutes on the succeeding client send `EXPIRE` 120. -/
theorem C10_witness :
    sentCommands (clientOk.Expire "session:42" (120 * Second)).2 =
      [⟨"EXPIRE", [.str "session:42", .int 120]⟩] :=
  ((C10_expire_whole_seconds clientOk "session:42" 120 (by decide) (by decide)).1
    connOk rfl).1

end PlatformCommon
